import Mathlib

/-!
Verification of the "Split the G" beer-level analyzer.

The repository is a browser tool that photographs a glass of stout,
estimates the liquid level from the RGBA pixel buffer and scores how
close that level is to a target line.  Two revisions carry all of the
algorithmic content:

* `App` embeds `src/js/app.js` (the latest revision): rim/edge based
  glass detection, a sliding-window colour-difference scan for the
  liquid level, and a row-distance scorer.
* `Rev1` embeds the first revision in `src/unnamed/part_000`: a
  darkness-threshold detector with a fill-ratio scorer.

Numbers inside the analyzers are exact rationals represented by `Frac`,
an unnormalized fraction of an integer numerator over a natural
denominator.  All `Frac` operations are plain integer arithmetic, so
concrete analyses evaluate by kernel reduction; `Frac.toQ` interprets a
fraction in `ℚ` and the bridge lemmas below show each operation agrees
with rational arithmetic whenever the denominators involved are
nonzero, which the geometry lemmas establish for every value the
analyzers produce.  JavaScript numbers are then modelled as
`Option Frac`: `some q` is an ordinary value and `none` stands for NaN,
or for an `undefined` out-of-range typed-array read that enters
arithmetic as NaN.  Arithmetic propagates `none`; every comparison with
a `none` operand is false, exactly as in JS.  Row positions stay
fractional because the JS code mixes integer loop counters with
fractional defaults such as `height * 0.75`.

`debugData` and `liquidTransitionByRow` in `app.js` feed only the debug
overlay drawing and never influence the returned analysis, so they are
not modelled.  The final `beerLevel` division is exact rational
division; the only JS input on which this differs from IEEE division is
the degenerate `height = 0` buffer (0/0), about which no theorem below
states anything: nondegeneracy of the denominator at the analyzed
dimensions is proved, not assumed.
-/

namespace SplitTheG

/-- An exact rational value: an integer numerator over a natural
denominator, not necessarily in lowest terms.  A denominator of zero
never arises from the analyzers at meaningful dimensions (proved where
needed); `toQ` sends such values to `0`, matching the `ℚ`
division-by-zero convention. -/
structure Frac where
  num : ℤ
  den : ℕ
deriving DecidableEq

namespace Frac

instance (n : ℕ) : OfNat Frac n := ⟨⟨(n : ℤ), 1⟩⟩
instance : NatCast Frac := ⟨fun n => ⟨(n : ℤ), 1⟩⟩

/-- Exact addition (denominators multiply, no reduction). -/
def add (a b : Frac) : Frac := ⟨a.num * b.den + b.num * a.den, a.den * b.den⟩
/-- Exact subtraction. -/
def sub (a b : Frac) : Frac := ⟨a.num * b.den - b.num * a.den, a.den * b.den⟩
/-- Exact multiplication. -/
def mul (a b : Frac) : Frac := ⟨a.num * b.num, a.den * b.den⟩
/-- Exact division by a natural constant. -/
def divN (a : Frac) (c : ℕ) : Frac := ⟨a.num, a.den * c⟩
/-- Exact division, with the divisor's sign moved into the numerator so
the denominator stays natural. -/
def div (a b : Frac) : Frac :=
  if 0 ≤ b.num then ⟨a.num * b.den, a.den * b.num.toNat⟩
  else ⟨-(a.num * b.den), a.den * (-b.num).toNat⟩
/-- `Math.abs`. -/
def fabs (a : Frac) : Frac := if a.num < 0 then ⟨-a.num, a.den⟩ else a
/-- Negation. -/
def fneg (a : Frac) : Frac := ⟨-a.num, a.den⟩
/-- Exact comparison `a < b` by cross multiplication (valid whenever
both denominators are positive). -/
def blt (a b : Frac) : Bool := decide (a.num * (b.den : ℤ) < b.num * (a.den : ℤ))
/-- Exact comparison `a ≤ b` by cross multiplication. -/
def ble (a b : Frac) : Bool := decide (a.num * (b.den : ℤ) ≤ b.num * (a.den : ℤ))
/-- `Math.min`. -/
def fmin (a b : Frac) : Frac := if ble a b then a else b
/-- `Math.floor`, as a Euclidean integer division. -/
def ffloor (a : Frac) : ℤ := Int.ediv a.num (a.den : ℤ)
/-- `Math.ceil` (used only to count loop iterations). -/
def fceil (a : Frac) : ℤ := -ffloor (fneg a)

instance : Add Frac := ⟨add⟩
instance : Sub Frac := ⟨sub⟩
instance : Mul Frac := ⟨mul⟩

/-- The rational value of a fraction. -/
def toQ (a : Frac) : ℚ := (a.num : ℚ) / (a.den : ℚ)

/-- Decidable test that a fraction has a nonzero denominator and the
exact integer value `n`. -/
def isVal (a : Frac) (n : ℤ) : Bool :=
  decide (a.den ≠ 0) && decide (a.num = n * (a.den : ℤ))

end Frac

/-- A JavaScript numeric value: `some q` is an ordinary number, `none`
stands for NaN (or an `undefined` read used in arithmetic). -/
abbrev JSVal := Option Frac

/-- JS addition; NaN propagates. -/
def jadd : JSVal → JSVal → JSVal
  | some a, some b => some (a + b)
  | _, _ => none

/-- JS subtraction; NaN propagates. -/
def jsub : JSVal → JSVal → JSVal
  | some a, some b => some (a - b)
  | _, _ => none

/-- JS `Math.abs`; NaN propagates. -/
def jabs : JSVal → JSVal
  | some a => some a.fabs
  | none => none

/-- JS division by a natural constant; NaN propagates. -/
def jdivN : JSVal → ℕ → JSVal
  | some a, c => some (a.divN c)
  | none, _ => none

/-- JS comparison `a > c`; false when `a` is NaN. -/
def jgtq : JSVal → Frac → Bool
  | some a, c => Frac.blt c a
  | none, _ => false

/-- JS comparison `a < c`; false when `a` is NaN. -/
def jltq : JSVal → Frac → Bool
  | some a, c => Frac.blt a c
  | none, _ => false

/-- Number of sampled columns `x ∈ [lo, hi)` satisfying `p`. -/
def countIn (lo hi : ℕ) (p : ℕ → Bool) : ℕ :=
  (List.range' lo (hi - lo)).countP p

/-- JS `Math.round`: round half towards positive infinity (stated over
`ℚ`; used only by the scorers, which receive already-computed values). -/
def jsRound (x : ℚ) : ℤ := ⌊x + 1/2⌋

/-- An RGBA buffer supplied as a finite list of byte values; reading
past the end of a JS typed array yields `undefined`, i.e. `none`. -/
def dataOfList (l : List ℕ) : ℕ → JSVal :=
  fun i => (l[i]?).map (fun v => ((v : ℕ) : Frac))

/-- A synthetic buffer for the two-tone test scenarios: every pixel in
rows `R, R+1, ...` (image bottom) has all four channels equal to `low`,
every pixel above has them equal to `high`. -/
def splitBuf (w r low high : ℕ) : ℕ → JSVal :=
  fun i => if r ≤ i / 4 / w then some ((low : ℕ) : Frac) else some ((high : ℕ) : Frac)

namespace App

/-- `analysisRegions.left = 0.2` from `app.js`. -/
def regionLeft : Frac := ⟨2, 10⟩
/-- `analysisRegions.right = 0.8` from `app.js`. -/
def regionRight : Frac := ⟨8, 10⟩
/-- `analysisRegions.top = 0.1` from `app.js`. -/
def regionTop : Frac := ⟨1, 10⟩
/-- `analysisRegions.bottom = 0.9` from `app.js`. -/
def regionBottom : Frac := ⟨9, 10⟩

/-- Start of the middle sampling band:
`Math.floor(width * left + guideWidth * 0.33)` where
`guideWidth = (right - left) * width`. -/
def startX (w : ℕ) : ℕ :=
  (Frac.ffloor ((w : Frac) * regionLeft + ((regionRight - regionLeft) * (w : Frac)) * ⟨33, 100⟩)).toNat

/-- End of the middle sampling band:
`Math.floor(width * left + guideWidth * 0.66)`. -/
def endX (w : ℕ) : ℕ :=
  (Frac.ffloor ((w : Frac) * regionLeft + ((regionRight - regionLeft) * (w : Frac)) * ⟨66, 100⟩)).toNat

/-- `leftRegionStart = Math.floor(width * left)`. -/
def leftLo (w : ℕ) : ℕ := (Frac.ffloor ((w : Frac) * regionLeft)).toNat
/-- `leftRegionEnd = Math.floor(width * (left + 0.1))`. -/
def leftHi (w : ℕ) : ℕ := (Frac.ffloor ((w : Frac) * (regionLeft + ⟨1, 10⟩))).toNat
/-- `rightRegionStart = Math.floor(width * (right - 0.1))`. -/
def rightLo (w : ℕ) : ℕ := (Frac.ffloor ((w : Frac) * (regionRight - ⟨1, 10⟩))).toNat
/-- `rightRegionEnd = Math.floor(width * right)`. -/
def rightHi (w : ℕ) : ℕ := (Frac.ffloor ((w : Frac) * regionRight)).toNat
/-- `startY = Math.floor(height * top)`. -/
def startY (h : ℕ) : ℕ := (Frac.ffloor ((h : Frac) * regionTop)).toNat
/-- `endY = Math.floor(height * bottom)`. -/
def endY (h : ℕ) : ℕ := (Frac.ffloor ((h : Frac) * regionBottom)).toNat

/-- Pixel brightness `(R + G + B) / 3` at row `y`, column `x`. -/
def bright (data : ℕ → JSVal) (w y x : ℕ) : JSVal :=
  jdivN (jadd (jadd (data ((y * w + x) * 4)) (data ((y * w + x) * 4 + 1)))
        (data ((y * w + x) * 4 + 2))) 3

/-- The per-pixel edge test of the first pass:
`verticalEdge > 30 || brightnessDiff > 20`. -/
def edgeCond (data : ℕ → JSVal) (w y x : ℕ) : Bool :=
  jgtq (jadd (jabs (jsub (bright data w y x) (bright data w (y - 1) x)))
        (jabs (jsub (bright data w y x) (bright data w (y + 1) x)))) 30 ||
  jgtq (jabs (jsub (bright data w y x)
        (jdivN (jadd (bright data w (y - 1) x) (bright data w (y + 1) x)) 2))) 20

/-- Rows actually visited by the first pass
(`for (let y = startY + 1; y < endY - 1; y++)`); all per-row arrays
stay `0` outside this range. -/
def rowScanned (h y : ℕ) : Bool :=
  decide (startY h + 1 ≤ y) && decide (y + 1 < endY h)

/-- `leftEdgeIntensity[y]`, already normalized by the region width. -/
def leftIntensity (data : ℕ → JSVal) (w h y : ℕ) : Frac :=
  if rowScanned h y then
    ((countIn (leftLo w) (leftHi w) (edgeCond data w y) : ℕ) : Frac).divN (leftHi w - leftLo w)
  else 0

/-- `rightEdgeIntensity[y]`, already normalized by the region width. -/
def rightIntensity (data : ℕ → JSVal) (w h y : ℕ) : Frac :=
  if rowScanned h y then
    ((countIn (rightLo w) (rightHi w) (edgeCond data w y) : ℕ) : Frac).divN (rightHi w - rightLo w)
  else 0

/-- `edgeIntensityByRow[y]` over the middle band, normalized by
`sampleWidth`. -/
def midIntensity (data : ℕ → JSVal) (w h y : ℕ) : Frac :=
  if rowScanned h y then
    ((countIn (startX w) (endX w) (edgeCond data w y) : ℕ) : Frac).divN (endX w - startX w)
  else 0

/-- A candidate rim row together with its edge strength. -/
structure RimEdge where
  position : ℕ
  strength : Frac
deriving DecidableEq

/-- `minEdgeStrength = 0.15` from `app.js`. -/
def minEdgeStrength : Frac := ⟨15, 100⟩

/-- `topSearchLimit = height * (top + (bottom - top) * 0.3)`. -/
def topLimit (h : ℕ) : Frac :=
  (h : Frac) * (regionTop + (regionBottom - regionTop) * ⟨3, 10⟩)

/-- The integer rows visited by the rim-search loop
(`for (let y = startY; y < topSearchLimit; y++)`), in ascending order. -/
def rimRows (h : ℕ) : List ℕ :=
  (List.range h).filter (fun y => decide (startY h ≤ y) && Frac.blt (y : Frac) (topLimit h))

/-- The rows pushed onto `leftTopEdges`/`rightTopEdges`: rim-search rows
whose edge intensity exceeds `minEdgeStrength`, in push (ascending)
order. -/
def rimCandidates (h : ℕ) (inten : ℕ → Frac) : List RimEdge :=
  ((rimRows h).filter (fun y => Frac.blt minEdgeStrength (inten y))).map
    (fun y => ⟨y, inten y⟩)

/-- Stable insertion used to model the (stable) JS
`sort((a, b) => b.strength - a.strength)`: an element moves past `d`
only when `d` is strictly stronger, so earlier equal-strength entries
stay first, exactly as TimSort leaves them. -/
def insertByStrength (c : RimEdge) : List RimEdge → List RimEdge
  | [] => [c]
  | d :: ds => if Frac.blt c.strength d.strength then d :: insertByStrength c ds
               else c :: d :: ds

/-- Stable sort of the candidate list by descending strength. -/
def sortByStrength : List RimEdge → List RimEdge
  | [] => []
  | c :: cs => insertByStrength c (sortByStrength cs)

/-- Combine the candidates of one side: sort by strength, keep the three
strongest (`slice(0, 3)`), return the smallest row index
(`Math.min(...)`); if no candidate was found the side keeps its default
`height * analysisRegions.top`. -/
def rimTopOf (dflt : Frac) (cands : List RimEdge) : Frac :=
  match (sortByStrength cands).take 3 with
  | [] => dflt
  | e :: es => es.foldl (fun m f => Frac.fmin m ((f.position : ℕ) : Frac)) ((e.position : ℕ) : Frac)

/-- `leftRimTop` as returned by the analysis. -/
def leftRim (data : ℕ → JSVal) (w h : ℕ) : Frac :=
  rimTopOf ((h : Frac) * regionTop) (rimCandidates h (fun y => leftIntensity data w h y))

/-- `rightRimTop` as returned by the analysis. -/
def rightRim (data : ℕ → JSVal) (w h : ℕ) : Frac :=
  rimTopOf ((h : Frac) * regionTop) (rimCandidates h (fun y => rightIntensity data w h y))

/-- `glassTop = Math.min(leftRimTop, rightRimTop)`. -/
def glassTopD (data : ℕ → JSVal) (w h : ℕ) : Frac :=
  Frac.fmin (leftRim data w h) (rightRim data w h)

/-- Start of the glass-bottom search: `Math.floor(height * 0.6)`. -/
def baseLo (h : ℕ) : ℕ := (Frac.ffloor ((h : Frac) * ⟨6, 10⟩)).toNat
/-- End of the glass-bottom search: `Math.floor(height * 0.9)`. -/
def baseHi (h : ℕ) : ℕ := (Frac.ffloor ((h : Frac) * ⟨9, 10⟩)).toNat
/-- Rows visited by the glass-bottom search loop. -/
def baseRows (h : ℕ) : List ℕ := List.range' (baseLo h) (baseHi h - baseLo h)

/-- Glass-bottom detection: running strict argmax of the middle-band
edge intensity, starting from the default `height * 0.75`. -/
def glassBottomOf (h : ℕ) (inten : ℕ → Frac) : Frac :=
  ((baseRows h).foldl
    (fun st y => if Frac.blt st.1 (inten y) then (inten y, ((y : ℕ) : Frac)) else st)
    ((0 : Frac), (h : Frac) * ⟨75, 100⟩)).2

/-- `glassBottom` as returned by the analysis. -/
def glassBottomD (data : ℕ → JSVal) (w h : ℕ) : Frac :=
  glassBottomOf h (fun y => midIntensity data w h y)

/-- `windowSize` of the liquid-level scan. -/
def windowSize : ℕ := 5
/-- `minColorDiff` of the liquid-level scan. -/
def minColorDiff : Frac := 30

/-- Typed-array read at a JS-number index: an integer-valued
nonnegative index reads the buffer, anything else (fractional or
negative) yields `undefined`. -/
def qIdx (data : ℕ → JSVal) (i : Frac) : JSVal :=
  if i.den ≠ 0 ∧ i.num % (i.den : ℤ) = 0 ∧ 0 ≤ i.num then data (i.num.toNat / i.den) else none

/-- Brightness of the pixel whose base index is `i`. -/
def jbright (data : ℕ → JSVal) (i : Frac) : JSVal :=
  jdivN (jadd (jadd (qIdx data i) (qIdx data (i + 1))) (qIdx data (i + 2))) 3

/-- Base indices `((yTop + wy) * width + x) * 4` of the pixels of one
scan window (`x ∈ [sx, ex)`, `wy ∈ [0, windowSize)`). -/
def windowCells (w sx ex : ℕ) (yTop : Frac) : List Frac :=
  (List.range' sx (ex - sx)).flatMap
    (fun x => (List.range windowSize).map
      (fun wy => ((yTop + ((wy : ℕ) : Frac)) * (w : Frac) + ((x : ℕ) : Frac)) * 4))

/-- The `currentWindow` cells of the scan at candidate row `y`. -/
def curCells (w : ℕ) (y : Frac) : List Frac := windowCells w (startX w) (endX w) y
/-- The `aboveWindow` cells of the scan at candidate row `y`. -/
def abvCells (w : ℕ) (y : Frac) : List Frac :=
  windowCells w (startX w) (endX w) (y - ((windowSize : ℕ) : Frac))
/-- `n = currentWindow.length`, the divisor of the window averages. -/
def cellCount (w : ℕ) (y : Frac) : ℕ := (curCells w y).length

/-- Sum of one raw colour channel (`off ∈ {0, 1, 2}` for R, G, B) over a
window; `reduce` with a zero initial accumulator. -/
def sumAt (data : ℕ → JSVal) (off : ℕ) (cells : List Frac) : JSVal :=
  cells.foldl (fun acc i => jadd acc (qIdx data (i + ((off : ℕ) : Frac)))) (some 0)

/-- Sum of the per-pixel brightness over a window. -/
def sumBright (data : ℕ → JSVal) (cells : List Frac) : JSVal :=
  cells.foldl (fun acc i => jadd acc (jbright data i)) (some 0)

/-- `colorDiff` of the scan at candidate row `y`: the sum of the
absolute differences of the window-averaged brightness, R, G and B. -/
def scanDiff (data : ℕ → JSVal) (w : ℕ) (y : Frac) : JSVal :=
  jadd (jadd (jadd
    (jabs (jsub (jdivN (sumBright data (curCells w y)) (cellCount w y))
                (jdivN (sumBright data (abvCells w y)) (cellCount w y))))
    (jabs (jsub (jdivN (sumAt data 0 (curCells w y)) (cellCount w y))
                (jdivN (sumAt data 0 (abvCells w y)) (cellCount w y)))))
    (jabs (jsub (jdivN (sumAt data 1 (curCells w y)) (cellCount w y))
                (jdivN (sumAt data 1 (abvCells w y)) (cellCount w y)))))
    (jabs (jsub (jdivN (sumAt data 2 (curCells w y)) (cellCount w y))
                (jdivN (sumAt data 2 (abvCells w y)) (cellCount w y))))

/-- Candidate rows of the liquid-level scan, in visit order: `y` starts
at `glassBottom - windowSize` and decreases while
`y > glassTop + windowSize`. -/
def scanYs (t b : Frac) : List Frac :=
  (List.range ((Frac.fceil ((b - ((windowSize : ℕ) : Frac)) - (t + ((windowSize : ℕ) : Frac)))).toNat)).map
    (fun k => b - ((windowSize : ℕ) : Frac) - ((k : ℕ) : Frac))

/-- One step of the liquid-level scan: accept row `y` when
`colorDiff > minColorDiff && colorDiff > maxTransition`; with a NaN
`colorDiff` both comparisons are false. -/
def liquidStep (data : ℕ → JSVal) (w : ℕ) (st : Frac × Frac) (y : Frac) : Frac × Frac :=
  match scanDiff data w y with
  | some q => if Frac.blt minColorDiff q && Frac.blt st.1 q then (q, y) else st
  | none => st

/-- `liquidLevel`: the scan fold, starting from
`(maxTransition, liquidLevel) = (0, glassBottom)`. -/
def liquidLevelOf (data : ℕ → JSVal) (w : ℕ) (t b : Frac) : Frac :=
  ((scanYs t b).foldl (liquidStep data w) ((0 : Frac), b)).2

/-- `liquidLevel` as returned by the analysis. -/
def liquidLevelD (data : ℕ → JSVal) (w h : ℕ) : Frac :=
  liquidLevelOf data w (glassTopD data w h) (glassBottomD data w h)

/-- The record returned by `analyzeBeerLevel` in `app.js` (without the
visualization-only `debugData`). -/
structure BeerAnalysis where
  beerLevel : Frac
  glassTop : Frac
  glassBottom : Frac
  liquidLevel : Frac
  leftRimTop : Frac
  rightRimTop : Frac
deriving DecidableEq

/-- `analyzeBeerLevel` from `src/js/app.js`. -/
def analyzeBeerLevel (data : ℕ → JSVal) (w h : ℕ) : BeerAnalysis :=
  { beerLevel := Frac.div (glassBottomD data w h - liquidLevelD data w h)
      (glassBottomD data w h - glassTopD data w h)
    glassTop := glassTopD data w h
    glassBottom := glassBottomD data w h
    liquidLevel := liquidLevelD data w h
    leftRimTop := leftRim data w h
    rightRimTop := rightRim data w h }

/-- `maxAllowedDifference` of the row-based scorer. -/
def maxAllowedDifference : ℚ := 10

/-- `calculateScore` from `src/js/app.js`:
`Math.round(Math.max(0, 100 - pixelDifference / 10 * 100))`. -/
def calculateScore (liquidLevel targetY : ℚ) : ℤ :=
  jsRound (max 0 (100 - (|liquidLevel - targetY| / maxAllowedDifference) * 100))

/-- `targetY` computed in `processImage` of `app.js`:
`Math.round(glassBottom - (glassBottom - glassTop) * 0.6)`. -/
def targetYOf (glassTop glassBottom : ℚ) : ℤ :=
  jsRound (glassBottom - (glassBottom - glassTop) * (6/10))

/-- `calculateScore` with the shared mutable `window.lastAnalysis` made
explicit: its `console.log` dereferences
`window.lastAnalysis.glassBottom`, which throws (`none`) when the
shared slot is unset; otherwise the returned score is computed from the
arguments alone. -/
def calculateScoreLogged (lastAnalysis : Option BeerAnalysis)
    (liquidLevel targetY : ℚ) : Option ℤ :=
  match lastAnalysis with
  | some _ => some (calculateScore liquidLevel targetY)
  | none => none

end App

namespace Rev1

/-- `startX = Math.floor(width * 0.33)`. -/
def startX (w : ℕ) : ℕ := (Frac.ffloor ((w : Frac) * ⟨33, 100⟩)).toNat
/-- `endX = Math.floor(width * 0.66)`. -/
def endX (w : ℕ) : ℕ := (Frac.ffloor ((w : Frac) * ⟨66, 100⟩)).toNat

/-- The dark-pixel test `r < 60 && g < 60 && b < 60`; false on
`undefined` reads, as in JS. -/
def darkCond (data : ℕ → JSVal) (w y x : ℕ) : Bool :=
  jltq (data ((y * w + x) * 4)) 60 && jltq (data ((y * w + x) * 4 + 1)) 60 &&
    jltq (data ((y * w + x) * 4 + 2)) 60

/-- `darkPixelsByRow[y]`, normalized by the sample width. -/
def darkRow (data : ℕ → JSVal) (w y : ℕ) : Frac :=
  ((countIn (startX w) (endX w) (darkCond data w y) : ℕ) : Frac).divN (endX w - startX w)

/-- The windowed transition statistic at row `y`: the absolute
difference of the mean dark ratio over rows `[y-10, y)` and
`[y, y+10)`. -/
def darkTransition (data : ℕ → JSVal) (w y : ℕ) : Frac :=
  Frac.fabs ((((List.range' (y - 10) 10).map (fun r => darkRow data w r)).foldl
      (fun a b => a + b) (0 : Frac)).divN 10 -
    (((List.range' y 10).map (fun r => darkRow data w r)).foldl
      (fun a b => a + b) (0 : Frac)).divN 10)

/-- Rows visited by the transition loop
(`for (let y = 10; y < height - 10; y++)`). -/
def transitionRows (h : ℕ) : List ℕ := List.range' 10 (h - 20)

/-- `transitionPoint`: running strict argmax of the transition
statistic, defaulting to `height * 0.75`. -/
def transitionPointD (data : ℕ → JSVal) (w h : ℕ) : Frac :=
  ((transitionRows h).foldl
    (fun st y => if Frac.blt st.1 (darkTransition data w y) then
        (darkTransition data w y, ((y : ℕ) : Frac)) else st)
    ((0 : Frac), (h : Frac) * ⟨75, 100⟩)).2

/-- The record returned by the first-revision `analyzeBeerLevel`
(without the visualization-only `debugData`); `transitionPoint` is the
detected liquid row. -/
structure DarkAnalysis where
  beerLevel : Frac
  transitionPoint : Frac
deriving DecidableEq

/-- `analyzeBeerLevel` from the first revision in
`src/unnamed/part_000` (`beerLevel = 1 - transitionPoint / height`). -/
def analyzeBeerLevel (data : ℕ → JSVal) (w h : ℕ) : DarkAnalysis :=
  { beerLevel := (1 : Frac) - (transitionPointD data w h).divN h
    transitionPoint := transitionPointD data w h }

/-- `targetLevel = 0.75` passed by `processImage` of the ratio-based
revisions. -/
def targetLevel : ℚ := 3/4

/-- `calculateScore` of the ratio-based revisions:
`Math.round(Math.max(0, 100 - difference * 200) * 100) / 100`. -/
def calculateScore (actualLevel tgt : ℚ) : ℚ :=
  ((jsRound ((max 0 (100 - |actualLevel - tgt| * 200)) * 100) : ℤ) : ℚ) / 100

end Rev1

/-! ### Bridge lemmas: `Frac` arithmetic agrees with `ℚ` -/

theorem div_div_q (x y z w : ℚ) : (x / y) / (z / w) = (x * w) / (y * z) := by
  rw [div_eq_mul_inv (x / y), inv_div, div_mul_div_comm]

theorem Frac.toQ_mk (n : ℤ) (d : ℕ) : Frac.toQ ⟨n, d⟩ = (n : ℚ) / (d : ℚ) := rfl

theorem Frac.toQ_natCast (n : ℕ) : Frac.toQ (n : Frac) = (n : ℚ) := by
  show Frac.toQ ⟨(n : ℤ), 1⟩ = (n : ℚ)
  rw [Frac.toQ_mk]
  push_cast
  norm_num

theorem Frac.toQ_add {a b : Frac} (ha : a.den ≠ 0) (hb : b.den ≠ 0) :
    Frac.toQ (a + b) = Frac.toQ a + Frac.toQ b := by
  show Frac.toQ (Frac.add a b) = _
  unfold Frac.add Frac.toQ
  have ha' : ((a.den : ℕ) : ℚ) ≠ 0 := Nat.cast_ne_zero.mpr ha
  have hb' : ((b.den : ℕ) : ℚ) ≠ 0 := Nat.cast_ne_zero.mpr hb
  push_cast
  field_simp
  all_goals ring

theorem Frac.toQ_sub {a b : Frac} (ha : a.den ≠ 0) (hb : b.den ≠ 0) :
    Frac.toQ (a - b) = Frac.toQ a - Frac.toQ b := by
  show Frac.toQ (Frac.sub a b) = _
  unfold Frac.sub Frac.toQ
  have ha' : ((a.den : ℕ) : ℚ) ≠ 0 := Nat.cast_ne_zero.mpr ha
  have hb' : ((b.den : ℕ) : ℚ) ≠ 0 := Nat.cast_ne_zero.mpr hb
  push_cast
  field_simp
  all_goals ring

theorem Frac.toQ_mul (a b : Frac) : Frac.toQ (a * b) = Frac.toQ a * Frac.toQ b := by
  show Frac.toQ (Frac.mul a b) = _
  unfold Frac.mul Frac.toQ
  push_cast
  rw [div_mul_div_comm]

theorem Frac.toQ_divN (a : Frac) (c : ℕ) :
    Frac.toQ (a.divN c) = Frac.toQ a / (c : ℚ) := by
  unfold Frac.divN Frac.toQ
  push_cast
  rw [div_div]

theorem Frac.toQ_div (a b : Frac) : Frac.toQ (Frac.div a b) = Frac.toQ a / Frac.toQ b := by
  unfold Frac.div Frac.toQ
  split
  · rw [div_div_q]
    have hcast : ((b.num.toNat : ℕ) : ℚ) = ((b.num : ℤ) : ℚ) := by
      exact_mod_cast Int.toNat_of_nonneg (by assumption)
    push_cast
    rw [hcast]
  · rw [div_div_q]
    have hb : b.num < 0 := lt_of_not_ge (by assumption)
    have hcast : (((-b.num).toNat : ℕ) : ℚ) = -((b.num : ℤ) : ℚ) := by
      exact_mod_cast Int.toNat_of_nonneg (by omega : (0 : ℤ) ≤ -b.num)
    push_cast
    rw [hcast, mul_neg, neg_div_neg_eq]

theorem Frac.toQ_fneg (a : Frac) : Frac.toQ a.fneg = -Frac.toQ a := by
  unfold Frac.fneg Frac.toQ
  push_cast
  rw [neg_div]

theorem Frac.toQ_fabs (a : Frac) : Frac.toQ a.fabs = |Frac.toQ a| := by
  unfold Frac.fabs Frac.toQ
  have hd : (0 : ℚ) ≤ ((a.den : ℕ) : ℚ) := Nat.cast_nonneg _
  split
  · have hn : a.num < 0 := by assumption
    rw [abs_div, abs_of_nonneg hd, abs_of_neg (by exact_mod_cast hn : ((a.num : ℤ) : ℚ) < 0)]
    push_cast
    ring_nf
  · have hn : ¬a.num < 0 := by assumption
    rw [abs_div, abs_of_nonneg hd,
      abs_of_nonneg (by exact_mod_cast le_of_not_lt hn : (0 : ℚ) ≤ ((a.num : ℤ) : ℚ))]

theorem Frac.blt_iff {a b : Frac} (ha : 0 < a.den) (hb : 0 < b.den) :
    Frac.blt a b = true ↔ Frac.toQ a < Frac.toQ b := by
  unfold Frac.blt Frac.toQ
  rw [decide_eq_true_eq,
    div_lt_div_iff (by exact_mod_cast ha : (0 : ℚ) < ((a.den : ℕ) : ℚ))
      (by exact_mod_cast hb : (0 : ℚ) < ((b.den : ℕ) : ℚ))]
  exact ⟨fun h => by exact_mod_cast h, fun h => by exact_mod_cast h⟩

theorem Frac.ble_iff {a b : Frac} (ha : 0 < a.den) (hb : 0 < b.den) :
    Frac.ble a b = true ↔ Frac.toQ a ≤ Frac.toQ b := by
  unfold Frac.ble Frac.toQ
  rw [decide_eq_true_eq,
    div_le_div_iff (by exact_mod_cast ha : (0 : ℚ) < ((a.den : ℕ) : ℚ))
      (by exact_mod_cast hb : (0 : ℚ) < ((b.den : ℕ) : ℚ))]
  exact ⟨fun h => by exact_mod_cast h, fun h => by exact_mod_cast h⟩

theorem Frac.toQ_fmin {a b : Frac} (ha : 0 < a.den) (hb : 0 < b.den) :
    Frac.toQ (Frac.fmin a b) = min (Frac.toQ a) (Frac.toQ b) := by
  unfold Frac.fmin
  by_cases h : Frac.ble a b = true
  · rw [if_pos h, min_eq_left ((Frac.ble_iff ha hb).mp h)]
  · rw [if_neg h]
    have : ¬Frac.toQ a ≤ Frac.toQ b := fun hc => h ((Frac.ble_iff ha hb).mpr hc)
    rw [min_eq_right (le_of_lt (lt_of_not_ge this))]

theorem Frac.fmin_den {a b : Frac} (ha : 0 < a.den) (hb : 0 < b.den) :
    0 < (Frac.fmin a b).den := by
  unfold Frac.fmin
  split
  · exact ha
  · exact hb

theorem Frac.ffloor_eq {a : Frac} (ha : 0 < a.den) : a.ffloor = ⌊a.toQ⌋ := by
  unfold Frac.ffloor Frac.toQ
  have hd : (0 : ℚ) < ((a.den : ℕ) : ℚ) := by exact_mod_cast ha
  have hdz : ((a.den : ℕ) : ℤ) ≠ 0 := by exact_mod_cast Nat.pos_iff_ne_zero.mp ha
  have hsum := Int.ediv_add_emod a.num (a.den : ℤ)
  have hr0 : 0 ≤ a.num % (a.den : ℤ) := Int.emod_nonneg a.num hdz
  have hrlt : a.num % (a.den : ℤ) < (a.den : ℤ) := Int.emod_lt_of_pos a.num (by exact_mod_cast ha)
  symm
  rw [Int.floor_eq_iff]
  have hsumq : ((a.num : ℤ) : ℚ) =
      ((a.den : ℕ) : ℚ) * ((a.num.ediv (a.den : ℤ) : ℤ) : ℚ) + ((a.num % (a.den : ℤ) : ℤ) : ℚ) := by
    exact_mod_cast congrArg (fun z : ℤ => (z : ℚ)) hsum.symm
  constructor
  · rw [le_div_iff hd]
    have : ((a.num % (a.den : ℤ) : ℤ) : ℚ) ≥ 0 := by exact_mod_cast hr0
    linarith [hsumq]
  · rw [div_lt_iff hd]
    have : ((a.num % (a.den : ℤ) : ℤ) : ℚ) < ((a.den : ℕ) : ℚ) := by exact_mod_cast hrlt
    push_cast
    push_cast at hsumq
    linarith [hsumq]

theorem Frac.fceil_eq {a : Frac} (ha : 0 < a.den) : a.fceil = ⌈a.toQ⌉ := by
  unfold Frac.fceil
  rw [Frac.ffloor_eq (show 0 < a.fneg.den from ha), Frac.toQ_fneg, Int.floor_neg, neg_neg]

theorem Frac.isVal_toQ {a : Frac} {n : ℤ} (h : Frac.isVal a n = true) :
    Frac.toQ a = (n : ℚ) := by
  unfold Frac.isVal at h
  rw [Bool.and_eq_true, decide_eq_true_eq, decide_eq_true_eq] at h
  unfold Frac.toQ
  rw [h.2]
  push_cast
  rw [mul_div_assoc, div_self (Nat.cast_ne_zero.mpr h.1), mul_one]

/-! ### Generic lemmas about the argmax-style folds -/

theorem foldl_snd_mem {α : Type} (step : Frac × Frac → α → Frac × Frac) (v : α → Frac)
    (hstep : ∀ st y, (step st y).2 = st.2 ∨ (step st y).2 = v y) :
    ∀ (l : List α) (init : Frac × Frac),
      (l.foldl step init).2 = init.2 ∨ ∃ y ∈ l, (l.foldl step init).2 = v y := by
  intro l
  induction l with
  | nil => intro init; exact Or.inl rfl
  | cons y l ih =>
    intro init
    rcases ih (step init y) with h1 | ⟨z, hz, h2⟩
    · rcases hstep init y with h' | h'
      · exact Or.inl (by rw [List.foldl_cons, h1, h'])
      · exact Or.inr ⟨y, by simp, by rw [List.foldl_cons, h1, h']⟩
    · exact Or.inr ⟨z, by simp [hz], by rw [List.foldl_cons]; exact h2⟩

theorem foldl_keep {σ α : Type} (step : σ → α → σ) (l : List α) (init : σ)
    (h : ∀ y ∈ l, step init y = init) : l.foldl step init = init := by
  induction l with
  | nil => rfl
  | cons y l ih =>
    rw [List.foldl_cons, h y (by simp)]
    exact ih (fun z hz => h z (by simp [hz]))

/-! ### Geometry bounds of the `app.js` analysis at the 640×480 canvas -/

theorem mem_insertByStrength {c e : App.RimEdge} :
    ∀ {l : List App.RimEdge}, e ∈ App.insertByStrength c l → e = c ∨ e ∈ l := by
  intro l
  induction l with
  | nil => intro h; simp [App.insertByStrength] at h; exact Or.inl h
  | cons d ds ih =>
    intro h
    unfold App.insertByStrength at h
    split at h
    · rcases List.mem_cons.mp h with h' | h'
      · exact Or.inr (List.mem_cons.mpr (Or.inl h'))
      · rcases ih h' with h'' | h''
        · exact Or.inl h''
        · exact Or.inr (List.mem_cons.mpr (Or.inr h''))
    · rcases List.mem_cons.mp h with h' | h'
      · exact Or.inl h'
      · exact Or.inr h'

theorem mem_sortByStrength {e : App.RimEdge} :
    ∀ {l : List App.RimEdge}, e ∈ App.sortByStrength l → e ∈ l := by
  intro l
  induction l with
  | nil => intro h; simpa [App.sortByStrength] using h
  | cons c cs ih =>
    intro h
    unfold App.sortByStrength at h
    rcases mem_insertByStrength h with h' | h'
    · exact h' ▸ List.mem_cons_self _ _
    · exact List.mem_cons.mpr (Or.inr (ih h'))

theorem foldl_fmin_bounds {lo hi : ℚ} :
    ∀ (es : List App.RimEdge) (m : Frac), 0 < m.den → lo ≤ m.toQ → m.toQ ≤ hi →
    (∀ e ∈ es, lo ≤ ((e.position : ℕ) : ℚ) ∧ ((e.position : ℕ) : ℚ) ≤ hi) →
    0 < (es.foldl (fun m f => Frac.fmin m ((f.position : ℕ) : Frac)) m).den ∧
    lo ≤ (es.foldl (fun m f => Frac.fmin m ((f.position : ℕ) : Frac)) m).toQ ∧
    (es.foldl (fun m f => Frac.fmin m ((f.position : ℕ) : Frac)) m).toQ ≤ hi := by
  intro es
  induction es with
  | nil => intro m h1 h2 h3 _; exact ⟨h1, h2, h3⟩
  | cons e es ih =>
    intro m h1 h2 h3 hes
    have hposden : (0 : ℕ) < (((e.position : ℕ) : Frac)).den := Nat.one_pos
    have hmden : 0 < (Frac.fmin m ((e.position : ℕ) : Frac)).den := Frac.fmin_den h1 hposden
    have hminq : (Frac.fmin m ((e.position : ℕ) : Frac)).toQ =
        min m.toQ (((e.position : ℕ) : Frac)).toQ := Frac.toQ_fmin h1 hposden
    have heb := hes e (List.mem_cons_self _ _)
    rw [Frac.toQ_natCast] at hminq
    rw [List.foldl_cons]
    exact ih _ hmden
      (by rw [hminq]; exact le_min h2 heb.1)
      (by rw [hminq]; exact le_trans (min_le_left _ _) h3)
      (fun f hf => hes f (List.mem_cons.mpr (Or.inr hf)))

theorem rimTopOf_bounds {dflt : Frac} {cands : List App.RimEdge} {lo hi : ℚ}
    (hdp : 0 < dflt.den) (hd1 : lo ≤ dflt.toQ) (hd2 : dflt.toQ ≤ hi)
    (hc : ∀ e ∈ cands, lo ≤ ((e.position : ℕ) : ℚ) ∧ ((e.position : ℕ) : ℚ) ≤ hi) :
    0 < (App.rimTopOf dflt cands).den ∧ lo ≤ (App.rimTopOf dflt cands).toQ ∧
    (App.rimTopOf dflt cands).toQ ≤ hi := by
  unfold App.rimTopOf
  rcases hmatch : (App.sortByStrength cands).take 3 with _ | ⟨e, es⟩
  · exact ⟨hdp, hd1, hd2⟩
  · have hsub : ∀ f ∈ e :: es, f ∈ cands := by
      intro f hf
      have : f ∈ (App.sortByStrength cands).take 3 := hmatch ▸ hf
      exact mem_sortByStrength (List.take_subset _ _ this)
    have hhead := hc e (hsub e (List.mem_cons_self _ _))
    exact foldl_fmin_bounds es ((e.position : ℕ) : Frac) Nat.one_pos
      (by rw [Frac.toQ_natCast]; exact hhead.1)
      (by rw [Frac.toQ_natCast]; exact hhead.2)
      (fun f hf => hc f (hsub f (List.mem_cons.mpr (Or.inr hf))))

theorem mem_rimRows_480 {y : ℕ} (hy : y ∈ App.rimRows 480) : 48 ≤ y ∧ y ≤ 163 := by
  unfold App.rimRows at hy
  rw [List.mem_filter, Bool.and_eq_true, decide_eq_true_eq] at hy
  obtain ⟨-, h1, h2⟩ := hy
  have hsy : App.startY 480 = 48 := by decide
  have htl : App.topLimit 480 = ⟨1632000, 10000⟩ := by decide
  rw [htl] at h2
  unfold Frac.blt at h2
  rw [decide_eq_true_eq] at h2
  have h2' : (y : ℤ) * 10000 < 1632000 * 1 := h2
  omega

theorem rimCandidates_bounds_480 {inten : ℕ → Frac} {e : App.RimEdge}
    (he : e ∈ App.rimCandidates 480 inten) :
    (48 : ℚ) ≤ ((e.position : ℕ) : ℚ) ∧ ((e.position : ℕ) : ℚ) ≤ 163 := by
  unfold App.rimCandidates at he
  rw [List.mem_map] at he
  obtain ⟨y, hy, rfl⟩ := he
  rw [List.mem_filter] at hy
  have := mem_rimRows_480 hy.1
  constructor <;> [exact_mod_cast this.1; exact_mod_cast this.2]

theorem leftRim_bounds_640 (data : ℕ → JSVal) :
    0 < (App.leftRim data 640 480).den ∧ (48 : ℚ) ≤ (App.leftRim data 640 480).toQ ∧
    (App.leftRim data 640 480).toQ ≤ 163 := by
  unfold App.leftRim
  have hdflt : ((480 : ℕ) : Frac) * App.regionTop = ⟨480, 10⟩ := by decide
  rw [hdflt]
  exact rimTopOf_bounds Nat.succ_pos'
    (by rw [Frac.toQ_mk]; norm_num) (by rw [Frac.toQ_mk]; norm_num)
    (fun e he => rimCandidates_bounds_480 he)

theorem rightRim_bounds_640 (data : ℕ → JSVal) :
    0 < (App.rightRim data 640 480).den ∧ (48 : ℚ) ≤ (App.rightRim data 640 480).toQ ∧
    (App.rightRim data 640 480).toQ ≤ 163 := by
  unfold App.rightRim
  have hdflt : ((480 : ℕ) : Frac) * App.regionTop = ⟨480, 10⟩ := by decide
  rw [hdflt]
  exact rimTopOf_bounds Nat.succ_pos'
    (by rw [Frac.toQ_mk]; norm_num) (by rw [Frac.toQ_mk]; norm_num)
    (fun e he => rimCandidates_bounds_480 he)

theorem glassTop_bounds_640 (data : ℕ → JSVal) :
    0 < (App.glassTopD data 640 480).den ∧ (48 : ℚ) ≤ (App.glassTopD data 640 480).toQ ∧
    (App.glassTopD data 640 480).toQ ≤ 163 := by
  have hl := leftRim_bounds_640 data
  have hr := rightRim_bounds_640 data
  unfold App.glassTopD
  refine ⟨Frac.fmin_den hl.1 hr.1, ?_, ?_⟩
  · rw [Frac.toQ_fmin hl.1 hr.1]
    exact le_min hl.2.1 hr.2.1
  · rw [Frac.toQ_fmin hl.1 hr.1]
    exact le_trans (min_le_left _ _) hl.2.2

theorem mem_baseRows_480 {y : ℕ} (hy : y ∈ App.baseRows 480) : 288 ≤ y ∧ y < 432 := by
  unfold App.baseRows at hy
  have h1 : App.baseLo 480 = 288 := by decide
  have h2 : App.baseHi 480 = 432 := by decide
  rw [h1, h2] at hy
  rw [List.mem_range'_1] at hy
  omega

theorem glassBottom_bounds_640 (data : ℕ → JSVal) :
    0 < (App.glassBottomD data 640 480).den ∧ (288 : ℚ) ≤ (App.glassBottomD data 640 480).toQ ∧
    (App.glassBottomD data 640 480).toQ ≤ 431 := by
  unfold App.glassBottomD App.glassBottomOf
  have hstep : ∀ (st : Frac × Frac) (y : ℕ),
      ((fun st y => if Frac.blt st.1 (App.midIntensity data 640 480 y) then
        (App.midIntensity data 640 480 y, ((y : ℕ) : Frac)) else st) st y).2 = st.2 ∨
      ((fun st y => if Frac.blt st.1 (App.midIntensity data 640 480 y) then
        (App.midIntensity data 640 480 y, ((y : ℕ) : Frac)) else st) st y).2 = ((y : ℕ) : Frac) := by
    intro st y
    by_cases h : Frac.blt st.1 (App.midIntensity data 640 480 y) = true
    · simp [h]
    · simp [h]
  rcases foldl_snd_mem _ (fun y : ℕ => ((y : ℕ) : Frac)) hstep (App.baseRows 480)
      ((0 : Frac), ((480 : ℕ) : Frac) * ⟨75, 100⟩) with h | ⟨y, hy, h⟩
  · rw [h]
    have : ((480 : ℕ) : Frac) * ⟨75, 100⟩ = ⟨36000, 100⟩ := by decide
    rw [this]
    refine ⟨Nat.succ_pos', ?_, ?_⟩ <;> rw [Frac.toQ_mk] <;> norm_num
  · rw [h]
    have hb := mem_baseRows_480 hy
    refine ⟨Nat.one_pos, ?_, ?_⟩ <;> rw [Frac.toQ_natCast]
    · exact_mod_cast hb.1
    · have : y ≤ 431 := by omega
      exact_mod_cast this

theorem mem_scanYs {t b y : Frac} (ht : 0 < t.den) (hb : 0 < b.den)
    (hy : y ∈ App.scanYs t b) :
    0 < y.den ∧ t.toQ + 5 < y.toQ ∧ y.toQ ≤ b.toQ - 5 := by
  unfold App.scanYs at hy
  rw [List.mem_map] at hy
  obtain ⟨k, hk, rfl⟩ := hy
  rw [List.mem_range] at hk
  have hbden : b.den ≠ 0 := Nat.pos_iff_ne_zero.mp hb
  have htden : t.den ≠ 0 := Nat.pos_iff_ne_zero.mp ht
  have hw5den : (((App.windowSize : ℕ) : Frac)).den = 1 := rfl
  have hyden : (b - ((App.windowSize : ℕ) : Frac) - ((k : ℕ) : Frac)).den = b.den * 1 * 1 := rfl
  have hw5q : (((App.windowSize : ℕ) : Frac)).toQ = 5 := by
    rw [Frac.toQ_natCast]; norm_num [App.windowSize]
  have hsub1 : (b - ((App.windowSize : ℕ) : Frac)).toQ = b.toQ - 5 := by
    rw [Frac.toQ_sub hbden (by rw [hw5den]; omega), hw5q]
  have hsub1den : (b - ((App.windowSize : ℕ) : Frac)).den ≠ 0 := by
    show b.den * 1 ≠ 0; omega
  have hyq : (b - ((App.windowSize : ℕ) : Frac) - ((k : ℕ) : Frac)).toQ = b.toQ - 5 - k := by
    rw [Frac.toQ_sub hsub1den (by exact one_ne_zero), hsub1, Frac.toQ_natCast]
  have hargden : 0 < ((b - ((App.windowSize : ℕ) : Frac)) - (t + ((App.windowSize : ℕ) : Frac))).den := by
    show 0 < b.den * 1 * (t.den * 1); positivity
  have hargq : ((b - ((App.windowSize : ℕ) : Frac)) - (t + ((App.windowSize : ℕ) : Frac))).toQ =
      (b.toQ - 5) - (t.toQ + 5) := by
    rw [Frac.toQ_sub hsub1den (by show t.den * 1 ≠ 0; omega), hsub1,
      Frac.toQ_add htden (by rw [hw5den]; omega), hw5q]
  have hkq : (k : ℚ) < (b.toQ - 5) - (t.toQ + 5) := by
    have h1 : (k : ℤ) < Frac.fceil ((b - ((App.windowSize : ℕ) : Frac)) - (t + ((App.windowSize : ℕ) : Frac))) :=
      Int.lt_toNat.mp hk
    rw [Frac.fceil_eq hargden] at h1
    have h2 : ((k : ℤ) : ℚ) < ((b - ((App.windowSize : ℕ) : Frac)) - (t + ((App.windowSize : ℕ) : Frac))).toQ :=
      Int.lt_ceil.mp h1
    rw [hargq] at h2
    exact_mod_cast h2
  refine ⟨by rw [hyden]; omega, ?_, ?_⟩
  · rw [hyq]; linarith
  · rw [hyq]
    have : (0 : ℚ) ≤ (k : ℚ) := Nat.cast_nonneg k
    linarith

theorem liquidStep_snd (data : ℕ → JSVal) (w : ℕ) (st : Frac × Frac) (y : Frac) :
    (App.liquidStep data w st y).2 = st.2 ∨ (App.liquidStep data w st y).2 = y := by
  unfold App.liquidStep
  cases hd : App.scanDiff data w y with
  | none => exact Or.inl rfl
  | some q =>
    by_cases h : (Frac.blt App.minColorDiff q && Frac.blt st.1 q) = true
    · simp [h]
    · simp [h]

theorem liquid_bounds {data : ℕ → JSVal} {w : ℕ} {t b : Frac}
    (ht : 0 < t.den) (hb : 0 < b.den) (htb : t.toQ < b.toQ) :
    0 < (App.liquidLevelOf data w t b).den ∧
    t.toQ < (App.liquidLevelOf data w t b).toQ ∧
    (App.liquidLevelOf data w t b).toQ ≤ b.toQ := by
  unfold App.liquidLevelOf
  rcases foldl_snd_mem (App.liquidStep data w) id (fun st y => liquidStep_snd data w st y)
      (App.scanYs t b) ((0 : Frac), b) with h | ⟨y, hy, h⟩
  · rw [h]
    exact ⟨hb, htb, le_refl _⟩
  · simp only [id_eq] at h
    rw [h]
    have := mem_scanYs ht hb hy
    exact ⟨this.1, by linarith [this.2.1], by linarith [this.2.2]⟩

/-- All geometry bounds of one 640×480 analysis, shared by the claim
theorems below. -/
theorem analysis_bounds_640 (data : ℕ → JSVal) :
    0 < (App.glassTopD data 640 480).den ∧ 0 < (App.glassBottomD data 640 480).den ∧
    0 < (App.liquidLevelD data 640 480).den ∧
    (48 : ℚ) ≤ (App.glassTopD data 640 480).toQ ∧ (App.glassTopD data 640 480).toQ ≤ 163 ∧
    (288 : ℚ) ≤ (App.glassBottomD data 640 480).toQ ∧ (App.glassBottomD data 640 480).toQ ≤ 431 ∧
    (App.glassTopD data 640 480).toQ < (App.liquidLevelD data 640 480).toQ ∧
    (App.liquidLevelD data 640 480).toQ ≤ (App.glassBottomD data 640 480).toQ := by
  have ht := glassTop_bounds_640 data
  have hbb := glassBottom_bounds_640 data
  have htb : (App.glassTopD data 640 480).toQ < (App.glassBottomD data 640 480).toQ := by
    linarith [ht.2.2, hbb.2.1]
  have hl := @liquid_bounds data 640 _ _ ht.1 hbb.1 htb
  exact ⟨ht.1, hbb.1, hl.1, ht.2.1, ht.2.2, hbb.2.1, hbb.2.2, hl.2.1, hl.2.2⟩

/-- The rational value of the returned fill ratio, in terms of the
geometry values. -/
theorem beerLevel_toQ_640 (data : ℕ → JSVal) :
    (App.analyzeBeerLevel data 640 480).beerLevel.toQ =
    ((App.glassBottomD data 640 480).toQ - (App.liquidLevelD data 640 480).toQ) /
      ((App.glassBottomD data 640 480).toQ - (App.glassTopD data 640 480).toQ) := by
  have h := analysis_bounds_640 data
  simp only [App.analyzeBeerLevel]
  rw [Frac.toQ_div,
    Frac.toQ_sub (Nat.pos_iff_ne_zero.mp h.2.1) (Nat.pos_iff_ne_zero.mp h.2.2.1),
    Frac.toQ_sub (Nat.pos_iff_ne_zero.mp h.2.1) (Nat.pos_iff_ne_zero.mp h.1)]

/-- C1: at the 640×480 canvas dimensions of `app.js`, every RGBA input
buffer (arbitrary pixel data, NaN included) yields an analysis whose
fill ratio lies in `[0, 1]` and whose geometry satisfies
`glassTop ≤ liquidLevel ≤ glassBottom`. -/
theorem fill_and_geometry_bounds (data : ℕ → JSVal) :
    0 ≤ (App.analyzeBeerLevel data 640 480).beerLevel.toQ ∧
    (App.analyzeBeerLevel data 640 480).beerLevel.toQ ≤ 1 ∧
    (App.analyzeBeerLevel data 640 480).glassTop.toQ ≤
      (App.analyzeBeerLevel data 640 480).liquidLevel.toQ ∧
    (App.analyzeBeerLevel data 640 480).liquidLevel.toQ ≤
      (App.analyzeBeerLevel data 640 480).glassBottom.toQ := by
  obtain ⟨-, -, -, h48, h163, h288, h431, hlt, hle⟩ := analysis_bounds_640 data
  have hbeer := beerLevel_toQ_640 data
  refine ⟨?_, ?_, ?_, ?_⟩
  · rw [hbeer]
    apply div_nonneg <;> linarith
  · rw [hbeer, div_le_one (by linarith)]
    linarith
  · simp only [App.analyzeBeerLevel]
    linarith
  · simp only [App.analyzeBeerLevel]
    linarith

/-- C10: at 640×480 the detected `glassTop` is strictly above the
detected `glassBottom` (rim search stays below row 163.2, base search
starts at row 288), so the fill-ratio denominator is nonzero and the
returned fill ratio is strictly below 1: the analyzer can never report
a completely full glass. -/
theorem glass_geometry_nondegenerate (data : ℕ → JSVal) :
    (App.analyzeBeerLevel data 640 480).glassTop.toQ <
      (App.analyzeBeerLevel data 640 480).glassBottom.toQ ∧
    (App.analyzeBeerLevel data 640 480).glassBottom.toQ -
      (App.analyzeBeerLevel data 640 480).glassTop.toQ ≠ 0 ∧
    (App.analyzeBeerLevel data 640 480).beerLevel.toQ < 1 := by
  obtain ⟨-, -, -, h48, h163, h288, h431, hlt, hle⟩ := analysis_bounds_640 data
  have hbeer := beerLevel_toQ_640 data
  refine ⟨?_, ?_, ?_⟩
  · simp only [App.analyzeBeerLevel]
    linarith
  · simp only [App.analyzeBeerLevel]
    intro hcon
    linarith
  · rw [hbeer, div_lt_one (by linarith)]
    linarith

/-! ### The analysis of a malformed (empty) buffer -/

theorem jadd_none_left (x : JSVal) : jadd none x = none := by cases x <;> rfl

theorem jadd_none_right (x : JSVal) : jadd x none = none := by cases x <;> rfl

theorem qIdx_nil (i : Frac) : App.qIdx (dataOfList []) i = none := by
  unfold App.qIdx
  split <;> rfl

theorem jbright_nil (i : Frac) : App.jbright (dataOfList []) i = none := by
  unfold App.jbright
  rw [qIdx_nil, qIdx_nil, qIdx_nil, jadd_none_left, jadd_none_left]
  rfl

theorem countIn_false {lo hi : ℕ} {p : ℕ → Bool} (hp : ∀ x, p x = false) :
    countIn lo hi p = 0 := by
  unfold countIn
  rw [List.countP_eq_zero]
  intro a _
  simp [hp a]

theorem edgeCond_nil (w y x : ℕ) : App.edgeCond (dataOfList []) w y x = false := rfl

theorem leftIntensity_nil_num (w h y : ℕ) :
    (App.leftIntensity (dataOfList []) w h y).num = 0 := by
  unfold App.leftIntensity
  split
  · rw [countIn_false (fun x => edgeCond_nil w y x)]
    rfl
  · rfl

theorem rightIntensity_nil_num (w h y : ℕ) :
    (App.rightIntensity (dataOfList []) w h y).num = 0 := by
  unfold App.rightIntensity
  split
  · rw [countIn_false (fun x => edgeCond_nil w y x)]
    rfl
  · rfl

theorem midIntensity_nil_num (w h y : ℕ) :
    (App.midIntensity (dataOfList []) w h y).num = 0 := by
  unfold App.midIntensity
  split
  · rw [countIn_false (fun x => edgeCond_nil w y x)]
    rfl
  · rfl

theorem rimCandidates_zero_num {h : ℕ} {inten : ℕ → Frac}
    (hz : ∀ y, (inten y).num = 0) : App.rimCandidates h inten = [] := by
  unfold App.rimCandidates
  rw [List.filter_eq_nil_iff.mpr, List.map_nil]
  intro y _
  have hme : App.minEdgeStrength = ⟨15, 100⟩ := rfl
  rw [hme]
  unfold Frac.blt
  rw [Bool.not_eq_true, decide_eq_false_iff_not, hz y]
  show ¬((15 : ℤ) * ((inten y).den : ℤ) < 0 * (100 : ℤ))
  omega

theorem fmin_self (a : Frac) : Frac.fmin a a = a := by
  unfold Frac.fmin
  split <;> rfl

theorem glassBottomOf_zero {h : ℕ} {inten : ℕ → Frac}
    (hz : ∀ y, (inten y).num = 0) :
    App.glassBottomOf h inten = (h : Frac) * ⟨75, 100⟩ := by
  unfold App.glassBottomOf
  rw [foldl_keep]
  intro y _
  have hblt : Frac.blt (0 : Frac) (inten y) = false := by
    unfold Frac.blt
    rw [decide_eq_false_iff_not, hz y]
    show ¬((0 : ℤ) * ((inten y).den : ℤ) < 0 * (1 : ℤ))
    omega
  rw [hblt]
  rfl

theorem foldl_jadd_from_none (f : Frac → JSVal) (l : List Frac) :
    l.foldl (fun acc i => jadd acc (f i)) none = none := by
  induction l with
  | nil => rfl
  | cons b bs ih =>
    rw [List.foldl_cons, jadd_none_left]
    exact ih

theorem sum_none {f : Frac → JSVal} (hf : ∀ i, f i = none) (l : List Frac)
    (hl : l ≠ []) (a : Frac) :
    l.foldl (fun acc i => jadd acc (f i)) (some a) = none := by
  cases l with
  | nil => exact absurd rfl hl
  | cons b bs =>
    rw [List.foldl_cons, hf b, jadd_none_right]
    exact foldl_jadd_from_none f bs

theorem sumBright_nil_ne (cells : List Frac) (hl : cells ≠ []) :
    App.sumBright (dataOfList []) cells = none :=
  sum_none (fun i => jbright_nil i) cells hl 0

theorem sumAt_nil_ne (off : ℕ) (cells : List Frac) (hl : cells ≠ []) :
    App.sumAt (dataOfList []) off cells = none :=
  sum_none (fun i => qIdx_nil _) cells hl 0

theorem scanDiff_nil_le (w : ℕ) (y : Frac) :
    jgtq (App.scanDiff (dataOfList []) w y) App.minColorDiff = false := by
  by_cases hcur : App.curCells w y = []
  · by_cases habv : App.abvCells w y = []
    · unfold App.scanDiff App.cellCount
      rw [hcur, habv]
      rfl
    · unfold App.scanDiff App.cellCount
      rw [hcur, sumBright_nil_ne _ habv, sumAt_nil_ne 0 _ habv, sumAt_nil_ne 1 _ habv,
        sumAt_nil_ne 2 _ habv]
      rfl
  · by_cases habv : App.abvCells w y = []
    · unfold App.scanDiff App.cellCount
      rw [habv, sumBright_nil_ne _ hcur, sumAt_nil_ne 0 _ hcur, sumAt_nil_ne 1 _ hcur,
        sumAt_nil_ne 2 _ hcur]
      rfl
    · unfold App.scanDiff App.cellCount
      rw [sumBright_nil_ne _ hcur, sumAt_nil_ne 0 _ hcur, sumAt_nil_ne 1 _ hcur,
        sumAt_nil_ne 2 _ hcur, sumBright_nil_ne _ habv, sumAt_nil_ne 0 _ habv,
        sumAt_nil_ne 1 _ habv, sumAt_nil_ne 2 _ habv]
      rfl

theorem liquidStep_keep {data : ℕ → JSVal} {w : ℕ} (st : Frac × Frac) (y : Frac)
    (h : jgtq (App.scanDiff data w y) App.minColorDiff = false) :
    App.liquidStep data w st y = st := by
  unfold App.liquidStep
  cases hd : App.scanDiff data w y with
  | none => rfl
  | some q =>
    rw [hd] at h
    have h' : Frac.blt App.minColorDiff q = false := h
    simp [h']

theorem liquidLevelOf_nil (w : ℕ) (t b : Frac) :
    App.liquidLevelOf (dataOfList []) w t b = b := by
  unfold App.liquidLevelOf
  rw [foldl_keep]
  intro y _
  exact liquidStep_keep _ y (scanDiff_nil_le w y)

/-- Full characterization of the analysis of the empty buffer: every
statistic is zero, so every geometry value keeps its default. -/
theorem analyze_nil_toQ (w h : ℕ) :
    (App.analyzeBeerLevel (dataOfList []) w h).beerLevel.toQ = 0 ∧
    (App.analyzeBeerLevel (dataOfList []) w h).glassTop.toQ = (h : ℚ) / 10 ∧
    (App.analyzeBeerLevel (dataOfList []) w h).glassBottom.toQ = 3 * (h : ℚ) / 4 ∧
    (App.analyzeBeerLevel (dataOfList []) w h).liquidLevel.toQ = 3 * (h : ℚ) / 4 := by
  have hlr : App.leftRim (dataOfList []) w h = (h : Frac) * App.regionTop := by
    unfold App.leftRim
    rw [rimCandidates_zero_num (fun y => leftIntensity_nil_num w h y)]
    rfl
  have hrr : App.rightRim (dataOfList []) w h = (h : Frac) * App.regionTop := by
    unfold App.rightRim
    rw [rimCandidates_zero_num (fun y => rightIntensity_nil_num w h y)]
    rfl
  have htop : App.glassTopD (dataOfList []) w h = (h : Frac) * App.regionTop := by
    unfold App.glassTopD
    rw [hlr, hrr, fmin_self]
  have hbot : App.glassBottomD (dataOfList []) w h = (h : Frac) * ⟨75, 100⟩ :=
    glassBottomOf_zero (fun y => midIntensity_nil_num w h y)
  have hliq : App.liquidLevelD (dataOfList []) w h = (h : Frac) * ⟨75, 100⟩ := by
    unfold App.liquidLevelD
    rw [htop, hbot, liquidLevelOf_nil]
  have hbotq : ((h : Frac) * ⟨75, 100⟩).toQ = 3 * (h : ℚ) / 4 := by
    rw [Frac.toQ_mul, Frac.toQ_natCast, Frac.toQ_mk]
    norm_num
    ring
  have htopq : ((h : Frac) * App.regionTop).toQ = (h : ℚ) / 10 := by
    rw [Frac.toQ_mul, Frac.toQ_natCast]
    unfold App.regionTop
    rw [Frac.toQ_mk]
    norm_num
    ring
  refine ⟨?_, ?_, ?_, ?_⟩
  · simp only [App.analyzeBeerLevel]
    have hbden : (((h : ℕ) : Frac) * ⟨75, 100⟩).den ≠ 0 := by
      show (1 * 100 : ℕ) ≠ 0
      norm_num
    have htden : (((h : ℕ) : Frac) * App.regionTop).den ≠ 0 := by
      show (1 * 10 : ℕ) ≠ 0
      norm_num
    rw [hbot, hliq, htop, Frac.toQ_div,
      Frac.toQ_sub hbden hbden, Frac.toQ_sub hbden htden,
      sub_self, zero_div]
  · simp only [App.analyzeBeerLevel]
    rw [htop, htopq]
  · simp only [App.analyzeBeerLevel]
    rw [hbot, hbotq]
  · simp only [App.analyzeBeerLevel]
    rw [hliq, hbotq]

/-- C3 (amended): the code performs no input-length validation.  On an
empty (hence wrong-length) buffer `analyzeBeerLevel` does not fail with
any error: every out-of-range read behaves as NaN, every statistic is
zero, and a complete result with the default geometry is returned
(`glassTop = height/10`, `glassBottom = liquidLevel = 0.75·height`,
`beerLevel = 0`). -/
theorem malformed_buffer_no_failure (w h : ℕ) (hw : 0 < w) (hh : 0 < h) :
    (([] : List ℕ).length ≠ w * h * 4) ∧
    (App.analyzeBeerLevel (dataOfList []) w h).beerLevel.toQ = 0 ∧
    (App.analyzeBeerLevel (dataOfList []) w h).glassTop.toQ = (h : ℚ) / 10 ∧
    (App.analyzeBeerLevel (dataOfList []) w h).glassBottom.toQ = 3 * (h : ℚ) / 4 ∧
    (App.analyzeBeerLevel (dataOfList []) w h).liquidLevel.toQ = 3 * (h : ℚ) / 4 := by
  refine ⟨?_, analyze_nil_toQ w h⟩
  have h4 : 0 < w * h * 4 := Nat.mul_pos (Nat.mul_pos hw hh) (by norm_num)
  simp only [List.length_nil]
  omega

/-- Witness for C3 (amended) at the default 640×480 dimensions. -/
theorem malformed_buffer_no_failure_witness :
    (0 : ℕ) < 640 ∧ (0 : ℕ) < 480 ∧
    ((([] : List ℕ).length ≠ 640 * 480 * 4) ∧
      (App.analyzeBeerLevel (dataOfList []) 640 480).beerLevel.toQ = 0 ∧
      (App.analyzeBeerLevel (dataOfList []) 640 480).glassTop.toQ = ((480 : ℕ) : ℚ) / 10 ∧
      (App.analyzeBeerLevel (dataOfList []) 640 480).glassBottom.toQ = 3 * ((480 : ℕ) : ℚ) / 4 ∧
      (App.analyzeBeerLevel (dataOfList []) 640 480).liquidLevel.toQ = 3 * ((480 : ℕ) : ℚ) / 4) :=
  ⟨by norm_num, by norm_num, malformed_buffer_no_failure 640 480 (by norm_num) (by norm_num)⟩

/-- Counterexample to C3 as stated: the empty buffer has the wrong
length for 10×20, yet the analysis raises no InvalidInput error and
returns a complete result (`beerLevel = 0`, `glassTop = 2`,
`glassBottom = liquidLevel = 15`). -/
theorem malformed_buffer_cex :
    (([] : List ℕ).length ≠ 10 * 20 * 4) ∧
    Frac.isVal (App.analyzeBeerLevel (dataOfList []) 10 20).beerLevel 0 = true ∧
    Frac.isVal (App.analyzeBeerLevel (dataOfList []) 10 20).glassTop 2 = true ∧
    Frac.isVal (App.analyzeBeerLevel (dataOfList []) 10 20).glassBottom 15 = true ∧
    Frac.isVal (App.analyzeBeerLevel (dataOfList []) 10 20).liquidLevel 15 = true := by
  refine ⟨by norm_num, ?_, ?_, ?_, ?_⟩ <;> decide

/-- Counterexample to C2: on the empty-buffer analysis at 640×480 the
target row actually used by the scorer is 173 — the rounded row at
fraction 0.6 of the glass height above the base — while the row at
fraction 0.75 would be 126. -/
theorem targetY_not_three_quarters_cex :
    App.targetYOf (App.analyzeBeerLevel (dataOfList []) 640 480).glassTop.toQ
        (App.analyzeBeerLevel (dataOfList []) 640 480).glassBottom.toQ = 173 ∧
    jsRound ((App.analyzeBeerLevel (dataOfList []) 640 480).glassBottom.toQ -
      ((App.analyzeBeerLevel (dataOfList []) 640 480).glassBottom.toQ -
        (App.analyzeBeerLevel (dataOfList []) 640 480).glassTop.toQ) * (3/4)) = 126 ∧
    (173 : ℤ) ≠ 126 := by
  obtain ⟨-, htq, hbq, -⟩ := analyze_nil_toQ 640 480
  have h48 : ((480 : ℕ) : ℚ) / 10 = 48 := by norm_num
  have h360 : 3 * ((480 : ℕ) : ℚ) / 4 = 360 := by norm_num
  rw [htq, hbq, h48, h360]
  refine ⟨?_, ?_, by norm_num⟩
  · unfold App.targetYOf jsRound
    rw [show (360 : ℚ) - (360 - 48) * (6/10) + 1/2 = 1733/10 by norm_num]
    rw [Int.floor_eq_iff]
    constructor <;> norm_num
  · unfold jsRound
    rw [show (360 : ℚ) - (360 - 48) * (3/4) + 1/2 = 253/2 by norm_num]
    rw [Int.floor_eq_iff]
    constructor <;> norm_num

/-! ### Two-tone buffers and fallback behaviour (C6, C7) -/

set_option maxRecDepth 1000000
set_option maxHeartbeats 16000000

theorem twoTone_liquid_aux : ∀ r : ℕ, r < 25 → 15 ≤ r →
    Frac.isVal (App.analyzeBeerLevel (splitBuf 10 r 20 200) 10 40).liquidLevel (r : ℤ) = true := by
  decide

/-- C6 (amended): on a 10×40 two-tone buffer — uniformly bright
(value 200) above row `R`, uniformly dark (value 20) from row `R` down —
with the transition inside the detector's scan range (here
`15 ≤ R ≤ 24`), the analysis detects the liquid level exactly at row
`R`. -/
theorem twoTone_liquid_exact (r : ℕ) (h1 : 15 ≤ r) (h2 : r < 25) :
    (App.analyzeBeerLevel (splitBuf 10 r 20 200) 10 40).liquidLevel.toQ = (r : ℚ) := by
  have h := Frac.isVal_toQ (twoTone_liquid_aux r h2 h1)
  rw [h]
  push_cast
  rfl

/-- Witness for C6 (amended) at `R = 20`. -/
theorem twoTone_liquid_exact_witness :
    15 ≤ 20 ∧ 20 < 25 ∧
    (App.analyzeBeerLevel (splitBuf 10 20 20 200) 10 40).liquidLevel.toQ = ((20 : ℕ) : ℚ) :=
  ⟨by norm_num, by norm_num, twoTone_liquid_exact 20 (by norm_num) (by norm_num)⟩

/-- Counterexample to C6 as stated: the same two-tone buffer with the
transition at row `R = 10` — above the glass region, but still a
uniform dark-below/bright-above buffer — yields `liquidLevel = 30`,
which is not within ±1 of 10: transitions outside the scan range fall
back to the detected base. -/
theorem twoTone_outside_range_cex :
    (App.analyzeBeerLevel (splitBuf 10 10 20 200) 10 40).liquidLevel.toQ = 30 ∧
    ¬(|(30 : ℚ) - (10 : ℚ)| ≤ 1) := by
  constructor
  · have h := Frac.isVal_toQ (show Frac.isVal
        (App.analyzeBeerLevel (splitBuf 10 10 20 200) 10 40).liquidLevel 30 = true by decide)
    rw [h]
    norm_num
  · rw [show (30 : ℚ) - 10 = 20 by norm_num, abs_of_nonneg (by norm_num : (0 : ℚ) ≤ 20)]
    norm_num

/-- C7 (amended): when no candidate row's windowed colour difference
exceeds the acceptance threshold, neither analyzer fails; the edge-based
variant (`app.js`) keeps `liquidLevel = glassBottom` (0% fill), and the
darkness-threshold variant keeps its default `0.75·height` — but the
latter only when every windowed dark-ratio difference is exactly zero,
since that variant has no minimum acceptance threshold. -/
theorem no_transition_fallback (data : ℕ → JSVal) (w h : ℕ)
    (hApp : ∀ y ∈ App.scanYs (App.glassTopD data w h) (App.glassBottomD data w h),
      jgtq (App.scanDiff data w y) App.minColorDiff = false)
    (hDark : ∀ y ∈ Rev1.transitionRows h,
      Frac.blt (0 : Frac) (Rev1.darkTransition data w y) = false) :
    (App.analyzeBeerLevel data w h).liquidLevel = (App.analyzeBeerLevel data w h).glassBottom ∧
    (Rev1.analyzeBeerLevel data w h).transitionPoint.toQ = 3 * (h : ℚ) / 4 := by
  constructor
  · simp only [App.analyzeBeerLevel]
    unfold App.liquidLevelD App.liquidLevelOf
    rw [foldl_keep _ _ _ (fun y hy => liquidStep_keep _ y (hApp y hy))]
  · simp only [Rev1.analyzeBeerLevel]
    unfold Rev1.transitionPointD
    rw [foldl_keep _ _ _ (fun y hy => by simp [hDark y hy])]
    show (((h : ℕ) : Frac) * ⟨75, 100⟩).toQ = _
    rw [Frac.toQ_mul, Frac.toQ_natCast, Frac.toQ_mk]
    norm_num
    ring

/-- Witness for C7 (amended) on a uniform grey 10×40 buffer: all
windowed differences vanish, the edge variant returns the base row and
the darkness variant returns `0.75 · 40 = 30`. -/
theorem no_transition_fallback_witness :
    (∀ y ∈ App.scanYs (App.glassTopD (fun _ => some 100) 10 40)
        (App.glassBottomD (fun _ => some 100) 10 40),
      jgtq (App.scanDiff (fun _ => some 100) 10 y) App.minColorDiff = false) ∧
    (∀ y ∈ Rev1.transitionRows 40,
      Frac.blt (0 : Frac) (Rev1.darkTransition (fun _ => some 100) 10 y) = false) ∧
    ((App.analyzeBeerLevel (fun _ => some 100) 10 40).liquidLevel =
      (App.analyzeBeerLevel (fun _ => some 100) 10 40).glassBottom ∧
    (Rev1.analyzeBeerLevel (fun _ => some 100) 10 40).transitionPoint.toQ =
      3 * ((40 : ℕ) : ℚ) / 4) :=
  ⟨by decide, by decide,
    no_transition_fallback (fun _ => some 100) 10 40 (by decide) (by decide)⟩

/-- Counterexample to C7 as stated: a low-contrast 10×40 two-tone
buffer (62 above row 20, 58 below) has every windowed colour difference
at or below the threshold 30 in both variants, and the edge-based
variant duly falls back to the base; but the darkness-threshold variant
returns `transitionPoint = 20`, not the claimed 75% of height (30),
because any nonzero windowed difference wins its argmax. -/
theorem dark_variant_fallback_cex :
    (∀ y ∈ Rev1.transitionRows 40,
      Frac.ble (Rev1.darkTransition (splitBuf 10 20 58 62) 10 y) 30 = true) ∧
    (∀ y ∈ App.scanYs (App.glassTopD (splitBuf 10 20 58 62) 10 40)
        (App.glassBottomD (splitBuf 10 20 58 62) 10 40),
      jgtq (App.scanDiff (splitBuf 10 20 58 62) 10 y) App.minColorDiff = false) ∧
    (App.analyzeBeerLevel (splitBuf 10 20 58 62) 10 40).liquidLevel =
      (App.analyzeBeerLevel (splitBuf 10 20 58 62) 10 40).glassBottom ∧
    (Rev1.analyzeBeerLevel (splitBuf 10 20 58 62) 10 40).transitionPoint.toQ = 20 ∧
    (20 : ℚ) ≠ 3 * ((40 : ℕ) : ℚ) / 4 := by
  refine ⟨by decide, by decide, by decide, ?_, by norm_num⟩
  have h := Frac.isVal_toQ (show Frac.isVal
      (Rev1.analyzeBeerLevel (splitBuf 10 20 58 62) 10 40).transitionPoint 20 = true by decide)
  rw [h]
  norm_num

/-- C9: both analyzers and the scorer are deterministic functions of
their explicit arguments: extensionally equal buffers give equal
analyses, and the scorer's result does not depend on the shared
`window.lastAnalysis` slot its logging reads (as long as the slot is
populated, since the log dereferences it). -/
theorem core_purity_determinism (data₁ data₂ : ℕ → JSVal) (w h : ℕ)
    (hd : ∀ i, data₁ i = data₂ i) (s₁ s₂ : App.BeerAnalysis) (l t : ℚ) :
    App.analyzeBeerLevel data₁ w h = App.analyzeBeerLevel data₂ w h ∧
    Rev1.analyzeBeerLevel data₁ w h = Rev1.analyzeBeerLevel data₂ w h ∧
    App.calculateScoreLogged (some s₁) l t = App.calculateScoreLogged (some s₂) l t := by
  have hde : data₁ = data₂ := funext hd
  subst hde
  exact ⟨rfl, rfl, rfl⟩

/-- Witness for C9: two syntactically distinct but extensionally equal
buffers, and two different shared-state contents, give identical
results. -/
theorem core_purity_determinism_witness :
    (∀ i : ℕ, (fun _ => (some 7 : JSVal)) i = (fun j => (some 7 : JSVal)) i) ∧
    (App.analyzeBeerLevel (fun _ => (some 7 : JSVal)) 10 20 =
        App.analyzeBeerLevel (fun j => (some 7 : JSVal)) 10 20 ∧
      Rev1.analyzeBeerLevel (fun _ => (some 7 : JSVal)) 10 20 =
        Rev1.analyzeBeerLevel (fun j => (some 7 : JSVal)) 10 20 ∧
      App.calculateScoreLogged (some ⟨0, 0, 0, 0, 0, 0⟩) 1 2 =
        App.calculateScoreLogged (some ⟨1, 2, 3, 4, 5, 6⟩) 1 2) :=
  ⟨fun i => rfl,
    core_purity_determinism (fun _ => (some 7 : JSVal)) (fun j => (some 7 : JSVal)) 10 20
      (fun i => rfl) ⟨0, 0, 0, 0, 0, 0⟩ ⟨1, 2, 3, 4, 5, 6⟩ 1 2⟩

/-! ### Basic facts about JS rounding -/

theorem jsRound_intCast (n : ℤ) : jsRound ((n : ℤ) : ℚ) = n := by
  unfold jsRound
  rw [add_comm, Int.floor_add_int]
  norm_num

theorem jsRound_mono {x y : ℚ} (h : x ≤ y) : jsRound x ≤ jsRound y :=
  Int.floor_le_floor (by linarith)

/-! ### Scorer theorems -/

/-- C2 (amended): the target row that `processImage` feeds to the
row-based scorer is the row at fraction 0.6 — not 0.75 — of the
detected glass height above the base; `targetY` is that 60% row up to
the half-pixel rounding of `Math.round`. -/
theorem targetY_at_sixty_percent (t b : ℚ) :
    |((App.targetYOf t b : ℤ) : ℚ) - (b - (b - t) * (6/10))| ≤ 1/2 := by
  unfold App.targetYOf jsRound
  set x := b - (b - t) * (6/10) with hx
  have h1 : ((⌊x + 1/2⌋ : ℤ) : ℚ) ≤ x + 1/2 := Int.floor_le _
  have h2 : x + 1/2 < ((⌊x + 1/2⌋ : ℤ) : ℚ) + 1 := Int.lt_floor_add_one _
  rw [abs_le]
  constructor <;> linarith

/-- C4: on integer liquid and target rows the row-based scorer returns
exactly `max 0 (100 - (|liquidRow - targetRow| / 10) * 100)` rounded to
the nearest integer, which simplifies to the integer
`max 0 (100 - 10 * |liquidRow - targetRow|)`; it is clamped to
`[0, 100]`. -/
theorem calculateScore_row_formula (l t : ℤ) :
    App.calculateScore (l : ℚ) (t : ℚ) = max 0 (100 - 10 * |l - t|) ∧
    0 ≤ App.calculateScore (l : ℚ) (t : ℚ) ∧
    App.calculateScore (l : ℚ) (t : ℚ) ≤ 100 := by
  have habs : |(l : ℚ) - (t : ℚ)| = ((|l - t| : ℤ) : ℚ) := by push_cast; rfl
  have hmain : App.calculateScore (l : ℚ) (t : ℚ) = max 0 (100 - 10 * |l - t|) := by
    unfold App.calculateScore App.maxAllowedDifference
    rw [habs]
    have h2 : (100 : ℚ) - (((|l - t| : ℤ) : ℚ) / 10) * 100 = ((100 - 10 * |l - t| : ℤ) : ℚ) := by
      push_cast; ring
    rw [h2]
    have h3 : max (0 : ℚ) ((100 - 10 * |l - t| : ℤ) : ℚ) =
        ((max 0 (100 - 10 * |l - t|) : ℤ) : ℚ) := by
      rw [Int.cast_max]; norm_num
    rw [h3, jsRound_intCast]
  refine ⟨hmain, ?_, ?_⟩
  · rw [hmain]; exact le_max_left _ _
  · rw [hmain]
    have := abs_nonneg (l - t)
    apply max_le (by norm_num) (by omega)

/-- C5: the ratio-based scorer is clamped to `[0, 100]` for every pair
of ratios (including deviations above 100%), and equals
`max 0 (100 - |actual - target| * 200)` up to the two-decimal rounding
error of `Math.round(score * 100) / 100`. -/
theorem calculateScore_level_clamped (a t : ℚ) :
    0 ≤ Rev1.calculateScore a t ∧ Rev1.calculateScore a t ≤ 100 ∧
    |Rev1.calculateScore a t - max 0 (100 - |a - t| * 200)| ≤ 1/200 := by
  unfold Rev1.calculateScore jsRound
  set s := max (0 : ℚ) (100 - |a - t| * 200) with hs
  have hs0 : 0 ≤ s := le_max_left _ _
  have hs100 : s ≤ 100 := by
    rw [hs]
    have := abs_nonneg (a - t)
    apply max_le (by norm_num) (by nlinarith)
  set r := ⌊s * 100 + 1/2⌋ with hr
  have hle : ((r : ℤ) : ℚ) ≤ s * 100 + 1/2 := Int.floor_le _
  have hgt : s * 100 + 1/2 < ((r : ℤ) : ℚ) + 1 := Int.lt_floor_add_one _
  have hr0 : (0 : ℚ) ≤ ((r : ℤ) : ℚ) := by
    have h0 : (⌊(0 : ℚ)⌋ : ℤ) ≤ r := Int.floor_le_floor (by linarith)
    have : (0 : ℤ) ≤ r := by simpa using h0
    exact_mod_cast this
  refine ⟨by positivity, ?_, ?_⟩
  · have hlt : ((r : ℤ) : ℚ) < 10001 := by linarith
    have hint : r < 10001 := by exact_mod_cast hlt
    have : ((r : ℤ) : ℚ) ≤ 10000 := by exact_mod_cast Int.lt_add_one_iff.mp hint
    linarith
  · rw [abs_le]
    constructor <;> linarith

/-- C8: the ratio-based scorer returns exactly 100 when the actual
ratio equals the target, and both scorers are monotonically
non-increasing in the absolute deviation from the target. -/
theorem score_exact_and_monotone (t a₁ t₁ a₂ t₂ : ℚ) (l₁ r₁ l₂ r₂ : ℤ)
    (h1 : |a₁ - t₁| ≤ |a₂ - t₂|) (h2 : |l₁ - r₁| ≤ |l₂ - r₂|) :
    Rev1.calculateScore t t = 100 ∧
    Rev1.calculateScore a₂ t₂ ≤ Rev1.calculateScore a₁ t₁ ∧
    App.calculateScore (l₂ : ℚ) (r₂ : ℚ) ≤ App.calculateScore (l₁ : ℚ) (r₁ : ℚ) := by
  refine ⟨?_, ?_, ?_⟩
  · unfold Rev1.calculateScore
    rw [sub_self, abs_zero]
    norm_num
    rw [show ((10000 : ℚ) : ℚ) = ((10000 : ℤ) : ℚ) by norm_num, jsRound_intCast]
    norm_num
  · unfold Rev1.calculateScore
    have hfl : jsRound (max (0 : ℚ) (100 - |a₂ - t₂| * 200) * 100) ≤
        jsRound (max (0 : ℚ) (100 - |a₁ - t₁| * 200) * 100) := by
      apply jsRound_mono
      have : max (0 : ℚ) (100 - |a₂ - t₂| * 200) ≤ max 0 (100 - |a₁ - t₁| * 200) :=
        max_le_max le_rfl (by linarith)
      linarith
    have : ((jsRound (max (0 : ℚ) (100 - |a₂ - t₂| * 200) * 100) : ℤ) : ℚ) ≤
        ((jsRound (max (0 : ℚ) (100 - |a₁ - t₁| * 200) * 100) : ℤ) : ℚ) := by
      exact_mod_cast hfl
    linarith
  · unfold App.calculateScore
    have hcast : |(l₁ : ℚ) - (r₁ : ℚ)| ≤ |(l₂ : ℚ) - (r₂ : ℚ)| := by
      have : ((|l₁ - r₁| : ℤ) : ℚ) ≤ ((|l₂ - r₂| : ℤ) : ℚ) := by exact_mod_cast h2
      push_cast at this
      simpa using this
    apply jsRound_mono
    have : (100 : ℚ) - (|(l₂ : ℚ) - (r₂ : ℚ)| / App.maxAllowedDifference) * 100 ≤
        100 - (|(l₁ : ℚ) - (r₁ : ℚ)| / App.maxAllowedDifference) * 100 := by
      unfold App.maxAllowedDifference
      linarith
    exact max_le_max le_rfl this

/-- Witness for C8 at concrete scores: equal ratios give 100, a
1/20-deviation beats a 1/4-deviation, and a 0-pixel row error beats a
5-pixel row error. -/
theorem score_exact_and_monotone_witness :
    |(7 : ℚ)/10 - 3/4| ≤ |(1 : ℚ)/2 - 3/4| ∧ |(0 : ℤ) - 0| ≤ |(5 : ℤ) - 0| ∧
    (Rev1.calculateScore (3/4) (3/4) = 100 ∧
      Rev1.calculateScore (1/2) (3/4) ≤ Rev1.calculateScore (7/10) (3/4) ∧
      App.calculateScore ((5 : ℤ) : ℚ) ((0 : ℤ) : ℚ) ≤
        App.calculateScore ((0 : ℤ) : ℚ) ((0 : ℤ) : ℚ)) :=
  have habs : |(7 : ℚ)/10 - 3/4| ≤ |(1 : ℚ)/2 - 3/4| := by
    rw [show (7 : ℚ)/10 - 3/4 = -(1/20) by norm_num,
      show (1 : ℚ)/2 - 3/4 = -(1/4) by norm_num, abs_neg, abs_neg,
      abs_of_nonneg (by norm_num : (0 : ℚ) ≤ 1/20),
      abs_of_nonneg (by norm_num : (0 : ℚ) ≤ 1/4)]
    norm_num
  ⟨habs, by decide,
    score_exact_and_monotone (3/4) (7/10) (3/4) (1/2) (3/4) 0 0 5 0
      habs (by decide)⟩

end SplitTheG
